import Mathlib

/-!
Verification of the oncall-triage-dashboard scheduling and evidence core.

Shallow embedding of the TypeScript sources:
* `TriageService` (scheduler, lease protocol, alert collection, force-clear)
  from `triage.service.ts`;
* the evidence orchestrator (`runStep`, `gatherEvidence`, `truncate`)
  from `evidence.ts`;
* `CodexProvider.run` from `codex.provider.ts`.

Timestamps are modelled as `Nat` milliseconds since the Unix epoch
(`new Date(0)` is `0`).  JavaScript strings are modelled as `String`
except where character-level slicing matters (`truncate`), where
`List Char` is used.  Each Prisma statement (`updateMany`, `create`,
`findUnique`) is an atomic conditional operation on a single row, so the
store for one lock name is an `Option LockRow`.
-/

/-! ### SchedulerLock row and the lease protocol (triage.service.ts, acquireLease / refreshLease / releaseLease) -/

structure LockRow where
  ownerId : String
  leaseExpiresAt : Nat
  heartbeatAt : Nat
  acquiredAt : Nat
deriving Repr, DecidableEq

/-- The row data written by every successful acquire:
`{ ownerId: self, leaseExpiresAt: now + leaseMs, heartbeatAt: now, acquiredAt: now }`. -/
def leaseData (self : String) (now leaseMs : Nat) : LockRow :=
  { ownerId := self, leaseExpiresAt := now + leaseMs, heartbeatAt := now, acquiredAt := now }

/-- First statement of `acquireLease`: `updateMany` matching
`name = lockName AND (leaseExpiresAt < now OR ownerId = self)`.
Returns whether the update affected the row (`updated.count > 0`). -/
def tryUpdateAcquire (self : String) (now leaseMs : Nat) (st : Option LockRow) :
    Bool × Option LockRow :=
  match st with
  | some r =>
      if r.leaseExpiresAt < now ∨ r.ownerId = self then
        (true, some (leaseData self now leaseMs))
      else (false, st)
  | none => (false, none)

/-- `schedulerLock.create` when `findUnique` returned no row.  A concurrent
insert surfaces as a `P2002` unique-constraint violation, caught and
reported as acquire failure: that is the `some _` branch here. -/
def tryInsert (self : String) (now leaseMs : Nat) (st : Option LockRow) :
    Bool × Option LockRow :=
  match st with
  | none => (true, some (leaseData self now leaseMs))
  | some _ => (false, st)

/-- Retry statement of `acquireLease`: `updateMany` matching only
`leaseExpiresAt < now` (steal an expired lease). -/
def tryStealExpired (self : String) (now leaseMs : Nat) (st : Option LockRow) :
    Bool × Option LockRow :=
  match st with
  | some r =>
      if r.leaseExpiresAt < now then (true, some (leaseData self now leaseMs))
      else (false, st)
  | none => (false, st)

/-- `TriageService.acquireLease(now, leaseMs)`: conditional update, then
`findUnique`, then insert-if-absent (unique violation → `false`), then a
steal retry if the found lease is expired, else `false`. -/
def acquireLease (self : String) (now leaseMs : Nat) (st : Option LockRow) :
    Bool × Option LockRow :=
  let u := tryUpdateAcquire self now leaseMs st
  if u.1 then (true, u.2)
  else
    match u.2 with
    | none => tryInsert self now leaseMs u.2
    | some existing =>
        if existing.leaseExpiresAt < now then tryStealExpired self now leaseMs u.2
        else (false, u.2)

/-- `TriageService.refreshLease`: `updateMany` matching `ownerId = self`,
extending `leaseExpiresAt` and `heartbeatAt`; a no-op if ownership was lost. -/
def refreshLease (self : String) (now leaseMs : Nat) (st : Option LockRow) :
    Option LockRow :=
  match st with
  | some r =>
      if r.ownerId = self then
        some { r with leaseExpiresAt := now + leaseMs, heartbeatAt := now }
      else st
  | none => none

/-- `TriageService.releaseLease`: `updateMany` matching `ownerId = self`
with `data: { leaseExpiresAt: new Date() }` — the *current* time. -/
def releaseLease (self : String) (now : Nat) (st : Option LockRow) :
    Option LockRow :=
  match st with
  | some r => if r.ownerId = self then some { r with leaseExpiresAt := now } else st
  | none => none

/-- `owner` holds a non-expired lease at time `t`: the row exists, is owned
by `owner`, and the steal condition `leaseExpiresAt < t` does not hold. -/
def holdsLease (st : Option LockRow) (owner : String) (t : Nat) : Prop :=
  ∃ r, st = some r ∧ r.ownerId = owner ∧ ¬ r.leaseExpiresAt < t

/-- One lock operation of the protocol, tagged with the process that runs it
and the wall-clock time at which it runs. -/
inductive LeaseOp where
  | acquire (who : String) (now leaseMs : Nat)
  | renew (who : String) (now leaseMs : Nat)
  | release (who : String) (now : Nat)
deriving Repr, DecidableEq

def LeaseOp.who : LeaseOp → String
  | .acquire w _ _ => w
  | .renew w _ _ => w
  | .release w _ => w

def LeaseOp.time : LeaseOp → Nat
  | .acquire _ n _ => n
  | .renew _ n _ => n
  | .release _ n => n

/-- Run one operation; acquires report their boolean outcome, renew/release
return no value (`none`). -/
def applyLeaseOp (op : LeaseOp) (st : Option LockRow) : Option Bool × Option LockRow :=
  match op with
  | .acquire w n ms => ((acquireLease w n ms st).1, (acquireLease w n ms st).2)
  | .renew w n ms => (none, refreshLease w n ms st)
  | .release w n => (none, releaseLease w n st)

/-- Run an interleaving of lock operations, collecting each operation's
reported outcome and the final store state. -/
def runLeaseTrace : List LeaseOp → Option LockRow → List (Option Bool) × Option LockRow
  | [], st => ([], st)
  | op :: ops, st =>
      let r := applyLeaseOp op st
      let rest := runLeaseTrace ops r.2
      (r.1 :: rest.1, rest.2)

/-! ### Catch-up backlog (triage.service.ts, runSchedulerTick lines 121-131) -/

/-- The backlog computation of `runSchedulerTick`:
`lastRunAt && gap > intervalMs ? Math.min(maxCatchup, Math.ceil(gap / intervalMs)) : 1`.
`lastRunAt` is `scheduler?.lastRunAt?.getTime()`; an absent record is
`none`, and a stored timestamp of exactly the epoch (`0`) is falsy in
JavaScript, hence also takes the `1` branch.  `Math.ceil` on a quotient of
naturals is `(gap + intervalMs - 1) / intervalMs`. -/
def computeBacklog (lastRunAt : Option Nat) (now intervalMs maxCatchup : Nat) : Nat :=
  match lastRunAt with
  | none => 1
  | some t =>
      if t = 0 then 1
      else
        let gap := now - t
        if gap > intervalMs then min maxCatchup ((gap + intervalMs - 1) / intervalMs)
        else 1

/-! ### Alert discovery, dedup, and the scheduler tick (triage.service.ts) -/

/-- The fields of a Datadog monitor that drive deduplication.  The pair
`(monitorId, overallStateModified)` is the dedup key; `overallStateModified`
is the parsed `overall_state_modified ?? modified` timestamp. -/
structure MonitorRec where
  monitorId : String
  overallStateModified : Nat
deriving Repr, DecidableEq

/-- A persisted `AlertEvent` row, projected to its dedup key
`(monitorId, overallStateModified)`. -/
structure AlertEventRec where
  monitorId : String
  overallStateModified : Nat
deriving Repr, DecidableEq

/-- A persisted `TriageRun` row, projected to the fields the scheduler
mutates: status, error, finish timestamp, creation timestamp. -/
structure TriageRunRec where
  id : String
  status : String
  error : Option String
  finishedAt : Option Nat
  createdAt : Nat
deriving Repr, DecidableEq

/-- `alertEvent.findFirst({ where: { monitorId, overallStateModified } })`
returns a row, i.e. a record with that exact pair exists. -/
def existsEvent (db : List AlertEventRec) (mid : String) (modified : Nat) : Bool :=
  db.any fun e => e.monitorId = mid ∧ e.overallStateModified = modified

/-- The `continue` chain of `collectAlerts` for one monitor.  `pre` abstracts
the filters applied before the dedup query (state allowlist, free-text
filter, a valid `modified` timestamp, the max-age window — all driven by
env configuration); `post` abstracts the team/namespace tag filter, which
the source checks after the dedup query.  A monitor is kept iff it passes
`pre`, no `AlertEvent` with its `(monitorId, overallStateModified)` pair
exists, and it passes `post`. -/
def keepAlert (pre post : MonitorRec → Bool) (db : List AlertEventRec)
    (m : MonitorRec) : Bool :=
  pre m && !existsEvent db m.monitorId m.overallStateModified && post m

/-- `TriageService.collectAlerts`: filter the fetched monitors down to the
new alerts.  The database is not mutated while collecting, so the dedup
query runs against the snapshot `db` for every monitor. -/
def collectAlerts (pre post : MonitorRec → Bool) (db : List AlertEventRec)
    (monitors : List MonitorRec) : List MonitorRec :=
  monitors.filter (keepAlert pre post db)

/-- `AlertEvent` creation in `TriageService.processAlert` (no
`allowReprocess`): a new record with the alert's dedup pair. -/
def mkAlertEvent (m : MonitorRec) : AlertEventRec :=
  { monitorId := m.monitorId, overallStateModified := m.overallStateModified }

/-- One discovery-and-processing pass over the same monitor state, projected
to the `AlertEvent` table: `collectAlerts` followed by `processAlert` for
each collected alert, each creating one `AlertEvent` row. -/
def discoverAndProcess (pre post : MonitorRec → Bool) (db : List AlertEventRec)
    (monitors : List MonitorRec) : List AlertEventRec :=
  db ++ (collectAlerts pre post db monitors).map mkAlertEvent

/-- Number of `AlertEvent` rows with a given dedup pair. -/
def countEvents (db : List AlertEventRec) (mid : String) (modified : Nat) : Nat :=
  (db.filter fun e => e.monitorId = mid ∧ e.overallStateModified = modified).length

/-- Scheduler configuration drawn from the environment. -/
structure SchedCfg where
  ownerId : String
  intervalMs : Nat
  maxCatchup : Nat
  leaseMs : Nat
  staleTimeoutMs : Nat

/-- The persistent and process-local state touched by one scheduler tick.
`fetches` instruments the number of Datadog monitor fetches performed
(the `axios.get` in `collectAlerts`), so that "fetches no alerts" is a
statable property of the embedding. -/
structure TickState where
  isRunning : Bool
  lock : Option LockRow
  lastRunAt : Option Nat
  lastSuccessAt : Option Nat
  lastError : Option String
  triageRuns : List TriageRunRec
  alertEvents : List AlertEventRec
  fetches : Nat
deriving Repr, DecidableEq

/-- The small result object `runSchedulerTick` returns
(`{processed, skipped?, backlog?, error?}`). -/
structure TickResult where
  processed : Nat
  backlog : Option Nat
  skipped : Option String
  error : Option String
deriving Repr, DecidableEq

/-- `TriageService.failStaleRuns`: mark every run with `status = "running"`
and `createdAt < now - timeoutMs` as failed with a timeout error
(`Timed out after ${Math.round(timeoutMs / 1000)}s`) and a finish
timestamp.  `Math.round` on a non-negative quotient is
`(timeoutMs + 500) / 1000`. -/
def staleError (timeoutMs : Nat) : String :=
  "Timed out after " ++ toString ((timeoutMs + 500) / 1000) ++ "s"

def failStaleRuns (timeoutMs now : Nat) (runs : List TriageRunRec) : List TriageRunRec :=
  let threshold := now - timeoutMs
  let ids := (runs.filter fun r => r.status = "running" && r.createdAt < threshold).map (·.id)
  runs.map fun r =>
    if ids.contains r.id then
      { r with status := "failed", error := some (staleError timeoutMs), finishedAt := some now }
    else r

/-- `TriageService.processAlert` for a freshly discovered alert: create the
`AlertEvent`, create a `TriageRun` with `status = "running"`, then run
triage, which completes the run (`status = "complete"`) or fails it
(`status = "failed"` with the provider error).  `prov` abstracts the
provider outcome for the alert. -/
def processAlert (prov : MonitorRec → Except String Unit) (now : Nat)
    (st : TickState) (m : MonitorRec) : TickState :=
  let st := { st with alertEvents := st.alertEvents ++ [mkAlertEvent m] }
  let run : TriageRunRec :=
    { id := m.monitorId ++ "/" ++ toString m.overallStateModified
      status := "running", error := none, finishedAt := none, createdAt := now }
  let run :=
    match prov m with
    | .ok _ => { run with status := "complete", finishedAt := some now }
    | .error e => { run with status := "failed", error := some e, finishedAt := some now }
  { st with triageRuns := st.triageRuns ++ [run] }

/-- `TriageService.runOnce` (success path): record `lastRunAt`, clear
`lastError`, fetch monitors from Datadog, collect the new alerts, process
them one at a time, record `lastSuccessAt`, and report the count. -/
def runOnce (pre post : MonitorRec → Bool) (prov : MonitorRec → Except String Unit)
    (now : Nat) (monitors : List MonitorRec) (st : TickState) : Nat × TickState :=
  let st := { st with lastRunAt := some now, lastError := none, fetches := st.fetches + 1 }
  let alerts := collectAlerts pre post st.alertEvents monitors
  let st := alerts.foldl (processAlert prov now) st
  (alerts.length, { st with lastSuccessAt := some now })

/-- `backlog` sequential cycles of `runOnce`, accumulating the processed
counts. -/
def runCycles (pre post : MonitorRec → Bool) (prov : MonitorRec → Except String Unit)
    (now : Nat) (monitors : List MonitorRec) :
    Nat → TickState → Nat × TickState
  | 0, st => (0, st)
  | n + 1, st =>
      let r := runOnce pre post prov now monitors st
      let rest := runCycles pre post prov now monitors n r.2
      (r.1 + rest.1, rest.2)

/-- `TriageService.runSchedulerTick`.  Re-entrance guard, staleness sweep,
lease acquisition (on failure: `{processed: 0, skipped: "lease_not_acquired"}`
and exit before any alert work), backlog computation, the backlog cycles,
and the `finally` block that releases the lease and clears the running
flag.  Wall-clock time is modelled as the single instant `now` captured at
the start of the tick; the per-cycle timeout and the in-tick error path are
not modelled (no cycle fails in this embedding). -/
def runSchedulerTick (cfg : SchedCfg) (pre post : MonitorRec → Bool)
    (prov : MonitorRec → Except String Unit) (now : Nat)
    (monitors : List MonitorRec) (st : TickState) : TickResult × TickState :=
  if st.isRunning then
    ({ processed := 0, backlog := none, skipped := some "already_running", error := none }, st)
  else
    let st := { st with isRunning := true }
    let st := { st with triageRuns := failStaleRuns cfg.staleTimeoutMs now st.triageRuns }
    let acq := acquireLease cfg.ownerId now cfg.leaseMs st.lock
    let st := { st with lock := acq.2 }
    if !acq.1 then
      ({ processed := 0, backlog := none, skipped := some "lease_not_acquired", error := none },
       { st with isRunning := false })
    else
      let backlog := computeBacklog st.lastRunAt now cfg.intervalMs cfg.maxCatchup
      let r := runCycles pre post prov now monitors backlog st
      let st := r.2
      ({ processed := r.1, backlog := some backlog, skipped := none, error := none },
       { st with lock := releaseLease cfg.ownerId now st.lock, isRunning := false })

/-- `TriageService.forceClearRunning`: find every run with
`status = "running"`; if none, return `{ok: false, cleared: 0}` touching
nothing; otherwise mark them all `failed` with error `"Manually cleared"`
and a finish timestamp, set the lock row's `leaseExpiresAt` to
`new Date(0)` (the epoch) with no owner condition, and return
`{ok: true, cleared: n}`. -/
def forceClearRunning (now : Nat) (runs : List TriageRunRec) (lock : Option LockRow) :
    (Bool × Nat) × List TriageRunRec × Option LockRow :=
  let running := runs.filter fun r => r.status = "running"
  if running.length = 0 then ((false, 0), runs, lock)
  else
    let ids := running.map (·.id)
    let runs' := runs.map fun r =>
      if ids.contains r.id then
        { r with status := "failed", error := some "Manually cleared", finishedAt := some now }
      else r
    let lock' := lock.map fun r => { r with leaseExpiresAt := 0 }
    ((true, ids.length), runs', lock')

/-! ### Evidence orchestrator (evidence.ts: truncate, runStep, gatherEvidence) -/

/-- `MAX_OUTPUT = 12_000`, the artifact truncation limit. -/
def MAX_OUTPUT : Nat := 12000

/-- The truncation marker appended by `truncate` when `value.length > max`:
`` `\n...[truncated ${value.length - max} chars]` `` with `n` the number of
characters cut. -/
def truncMarker (n : Nat) : List Char :=
  "\n...[truncated ".toList ++ (toString n).toList ++ " chars]".toList

/-- `truncate(value, max)` from evidence.ts, on strings modelled as
character lists: unchanged when within the limit, otherwise the first
`max` characters followed by the marker. -/
def truncate (value : List Char) (max : Nat) : List Char :=
  if value.length ≤ max then value
  else value.take max ++ truncMarker (value.length - max)

inductive EvStatus where
  | ok
  | skipped
  | error
deriving Repr, DecidableEq

structure RepoFileHit where
  path : String
  line : Nat
  text : String
deriving Repr, DecidableEq

/-- One entry of the bundle's `steps` array. Timestamps (`new Date()`
at step start and finish) are modelled by a tick counter. -/
structure EvidenceStep where
  id : String
  title : String
  status : EvStatus
  startedAt : Nat
  finishedAt : Option Nat
  summary : Option String
  artifacts : Option (List String)
deriving Repr, DecidableEq

/-- The `{artifactKey?, summary?, output?, files?}` object a step body
returns on success. -/
structure StepResult where
  artifactKey : Option String
  summary : Option String
  output : Option (List Char)
  files : List RepoFileHit
deriving Repr, DecidableEq

/-- A declared step: id, title, and its body's outcome.  A body that throws
is `.error msg` where `msg` is what `errorMessage` extracts from the thrown
value; a body that returns is `.ok result`. -/
structure NamedStep where
  id : String
  title : String
  body : Except String StepResult
deriving Repr

/-- JavaScript truthiness of an optional string: `undefined` and `""` are
falsy. -/
def optTruthy : Option String → Bool
  | some s => s ≠ ""
  | none => false

def optTruthyChars : Option (List Char) → Bool
  | some s => s ≠ []
  | none => false

/-- `artifacts[key] = value` on the artifacts map, modelled as an
insertion-ordered association list. -/
def setArtifact (arts : List (String × List Char)) (key : String) (v : List Char) :
    List (String × List Char) :=
  if arts.any (·.1 = key) then
    arts.map fun p => if p.1 = key then (key, v) else p
  else arts ++ [(key, v)]

/-- The accumulator state `gatherEvidence` threads through its steps:
the `steps` array, the `artifacts` map, the global `repoFiles` collection,
and the timestamp tick counter. -/
structure EvState where
  steps : List EvidenceStep
  artifacts : List (String × List Char)
  repoFiles : List RepoFileHit
  clock : Nat
deriving Repr, DecidableEq

def evInit (c : Nat) : EvState :=
  { steps := [], artifacts := [], repoFiles := [], clock := c }

/-- `runStep(id, title, fn)` from gatherEvidence: record the step with
status `skipped` and a start timestamp; on return, store the truncated
output under the artifact key (when both are truthy), append any file
hits, and set status `ok`, summary, artifacts, finish timestamp; on throw,
set status `error` with the error message and finish timestamp.  The
exception is consumed here and never propagated. -/
def runStep (st : EvState) (s : NamedStep) : EvState :=
  let started := st.clock
  match s.body with
  | .ok r =>
      let arts :=
        if optTruthyChars r.output && optTruthy r.artifactKey then
          setArtifact st.artifacts (r.artifactKey.getD "") (truncate (r.output.getD []) MAX_OUTPUT)
        else st.artifacts
      let files := if r.files ≠ [] then st.repoFiles ++ r.files else st.repoFiles
      let entry : EvidenceStep :=
        { id := s.id, title := s.title, status := .ok, startedAt := started
          finishedAt := some (started + 1), summary := r.summary
          artifacts := if optTruthy r.artifactKey then some [r.artifactKey.getD ""] else none }
      { steps := st.steps ++ [entry], artifacts := arts, repoFiles := files, clock := started + 2 }
  | .error msg =>
      let entry : EvidenceStep :=
        { id := s.id, title := s.title, status := .error, startedAt := started
          finishedAt := some (started + 1), summary := some msg, artifacts := none }
      { st with steps := st.steps ++ [entry], clock := started + 2 }

/-- The step-running skeleton of `gatherEvidence`: the declared steps in
declaration order, each through `runStep`. -/
def gatherSteps (ss : List NamedStep) (st : EvState) : EvState :=
  ss.foldl runStep st

/-- The `steps` entry `runStep` produces for a step whose body starts at
tick `t` — a function of the step's own body alone. -/
def stepEntry (s : NamedStep) (t : Nat) : EvidenceStep :=
  match s.body with
  | .ok r =>
      { id := s.id, title := s.title, status := .ok, startedAt := t
        finishedAt := some (t + 1), summary := r.summary
        artifacts := if optTruthy r.artifactKey then some [r.artifactKey.getD ""] else none }
  | .error msg =>
      { id := s.id, title := s.title, status := .error, startedAt := t
        finishedAt := some (t + 1), summary := some msg, artifacts := none }

/-- The entries a run of the declared steps appends, with start ticks
spaced two apart (start and finish timestamp per step). -/
def stepEntries : List NamedStep → Nat → List EvidenceStep
  | [], _ => []
  | s :: rest, t => stepEntry s t :: stepEntries rest (t + 2)

/-! ### Codex provider (codex.provider.ts, CodexProvider.run) -/

/-- The control flow of `CodexProvider.run` around `runCodex(withModel)`.
`outcome b` is the result of one subprocess attempt where `b` says whether
the `--model` flag was passed (`runCodex(withModel)` passes it iff
`withModel && this.model`); `.error` carries the rejection message
(spawn error, non-zero exit, or timeout).  Returns the surfaced result and
the trace of attempts made (each recorded as whether `--model` was passed). -/
def codexRun (model : Option String) (allowFallback : Bool)
    (outcome : Bool → Except String Unit) : Except String Unit × List Bool :=
  let firstFlag := model.isSome
  match outcome firstFlag with
  | .ok _ => (.ok (), [firstFlag])
  | .error e =>
      if allowFallback && model.isSome then
        (outcome false, [firstFlag, false])
      else (.error e, [firstFlag])

/-! ## Theorems -/

/-- C8: `truncate` leaves strings within the limit unchanged; a longer
string becomes its first `L` characters followed by the marker naming
exactly `length s - L` truncated characters, and the result's length is at
most `L` plus the marker's length. -/
theorem truncate_roundtrip (s : List Char) (L : Nat) (h : L < s.length) :
    truncate s L = s.take L ++ truncMarker (s.length - L) ∧
    (truncate s L).length ≤ L + (truncMarker (s.length - L)).length ∧
    (∀ t : List Char, t.length ≤ L → truncate t L = t) := by
  have hnot : ¬ s.length ≤ L := by omega
  refine ⟨by simp [truncate, hnot], ?_, fun t ht => by simp [truncate, ht]⟩
  simp only [truncate, if_neg hnot, List.length_append, List.length_take]
  have : min L s.length = L := Nat.min_eq_left (Nat.le_of_lt h)
  omega

theorem truncate_roundtrip_witness :
    truncate "hello".toList 3 =
      "hello".toList.take 3 ++ truncMarker ("hello".toList.length - 3) :=
  (truncate_roundtrip "hello".toList 3 (by decide)).1

/-- C3 counterexample: the claim's closed-form
`backlog = min(maxCatchup, ceil(gap/interval))` fails at `gap = 0`
(the code yields `1`, the formula `0`), and a `lastRunAt` equal to the
epoch (`0`) is falsy in JavaScript, so with `gap = 650000` the code yields
`1` where the claim's conditional demands `min(5, 11) = 5`. -/
theorem backlog_formula_counterexample :
    computeBacklog (some 1000) 1000 60000 5 = 1 ∧
    min 5 ((1000 - 1000 + 60000 - 1) / 60000) = 0 ∧
    computeBacklog (some 0) 650000 60000 5 = 1 ∧
    min 5 ((650000 - 0 + 60000 - 1) / 60000) = 5 := by decide

/-- C3 (amended): with a nonzero `lastRunAt = t` and a positive gap, the
backlog equals `min(maxCatchup, ceil(gap/interval))` for
`maxCatchup = 5, interval = 60000`; in particular `gap = 650000` yields
`5`, not `11`. -/
theorem backlog_catchup_bound (t gap : Nat) (ht : t ≠ 0) (hgap : 1 ≤ gap) :
    computeBacklog (some t) (t + gap) 60000 5 = min 5 ((gap + 60000 - 1) / 60000) ∧
    computeBacklog (some t) (t + 650000) 60000 5 = 5 := by
  have hsub : t + gap - t = gap := by omega
  have hsub650 : t + 650000 - t = 650000 := by omega
  constructor
  · simp only [computeBacklog, if_neg ht, hsub]
    by_cases hgt : gap > 60000
    · simp [hgt]
    · have h1 : (gap + 59999) / 60000 = 1 := by
        apply Nat.div_eq_of_lt_le <;> omega
      have h2 : (gap + 60000 - 1) / 60000 = 1 := by
        have : gap + 60000 - 1 = gap + 59999 := by omega
        rw [this, h1]
      simp [hgt, h1, h2]
  · simp only [computeBacklog, if_neg ht, hsub650]
    norm_num

theorem backlog_catchup_bound_witness :
    computeBacklog (some 7) (7 + 650000) 60000 5 = 5 :=
  (backlog_catchup_bound 7 650000 (by decide) (by decide)).2

/-- C9: `CodexProvider.run` — when a model is configured and fallback is
allowed, a primary failure causes exactly one retry without the `--model`
flag and the retry's outcome is what the caller sees; when no model is
configured or fallback is disallowed, the primary failure is thrown
directly after a single attempt. -/
theorem codexRun_fallback_policy (model : Option String) (allowFallback : Bool)
    (outcome : Bool → Except String Unit) :
    (∀ e, model.isSome = true → allowFallback = true → outcome true = .error e →
        codexRun model allowFallback outcome = (outcome false, [true, false])) ∧
    (∀ e, (model = none ∨ allowFallback = false) → outcome model.isSome = .error e →
        codexRun model allowFallback outcome = (.error e, [model.isSome])) := by
  constructor
  · intro e hm hf hfail
    simp only [codexRun, hm, hfail, hf, Bool.and_self]
    simp
  · intro e hcase hfail
    rcases hcase with hnone | hnofb
    · simp only [codexRun, hnone] at *
      simp only [Option.isSome_none] at hfail ⊢
      simp [hfail]
    · simp only [codexRun, hnofb, hfail, Bool.false_and]
      simp [hfail]

theorem codexRun_fallback_policy_witness :
    codexRun (some "o3") true
        (fun b => if b then .error "primary failed" else .error "fallback failed") =
      ((fun b => if b then Except.error "primary failed"
          else Except.error "fallback failed" : Bool → Except String Unit) false,
       [true, false]) :=
  (codexRun_fallback_policy (some "o3") true
      (fun b => if b then .error "primary failed" else .error "fallback failed")).1
    "primary failed" rfl rfl rfl

/-- C4 counterexample: `releaseLease` writes `leaseExpiresAt = new Date()`
— the release time, not the epoch.  Releasing at `t = 1234` leaves
`leaseExpiresAt = 1234` (not `0`), and an acquire by another owner at the
same instant `t = 1234` fails, because the steal condition is the strict
`leaseExpiresAt < now`. -/
theorem releaseLease_epoch_counterexample :
    releaseLease "a" 1234 (some ⟨"a", 5000, 0, 0⟩) = some ⟨"a", 1234, 0, 0⟩ ∧
    some (1234 : Nat) ≠ some (0 : Nat) ∧
    (acquireLease "b" 1234 60000 (releaseLease "a" 1234 (some ⟨"a", 5000, 0, 0⟩))).1 =
      false := by decide

/-- C4 (amended): `release()` sets `leaseExpiresAt` to the *current* time
for rows owned by the caller, so after a release at time `t` an acquire by
any other owner at the same instant `t` still fails, and succeeds at any
strictly later time. -/
theorem releaseLease_steal_after (A B : String) (r : LockRow) (t u ms : Nat)
    (hA : r.ownerId = A) (hB : B ≠ A) (htu : t < u) :
    releaseLease A t (some r) = some { r with leaseExpiresAt := t } ∧
    (acquireLease B t ms (releaseLease A t (some r))).1 = false ∧
    acquireLease B u ms (releaseLease A t (some r)) = (true, some (leaseData B u ms)) := by
  have hrel : releaseLease A t (some r) = some { r with leaseExpiresAt := t } := by
    simp [releaseLease, hA]
  refine ⟨hrel, ?_, ?_⟩
  · rw [hrel]
    simp [acquireLease, tryUpdateAcquire, hA, Ne.symm hB]
  · rw [hrel]
    simp [acquireLease, tryUpdateAcquire, htu]

theorem releaseLease_steal_after_witness :
    acquireLease "b" 1235 60000 (releaseLease "a" 1234 (some ⟨"a", 5000, 77, 66⟩)) =
      (true, some (leaseData "b" 1235 60000)) :=
  (releaseLease_steal_after "a" "b" ⟨"a", 5000, 77, 66⟩ 1234 1235 60000 rfl
      (by decide) (by decide)).2.2

/-- C5: the code marks a prerequisite-missing step `ok`, not `skipped`.
The `repo-status` step with no resolved repository path returns only an
explanatory summary; `runStep` overwrites the initial `skipped` status
with `ok` on every non-throwing return, so the bundle entry carries status
`ok` together with a "skipping" summary. -/
theorem missingPrereqStep_marked_ok :
    (runStep (evInit 0)
        ⟨"repo-status", "Repo status & recent commits",
          .ok ⟨none, some "Repo path not found; skipping git history. Context: none.",
               none, []⟩⟩).steps =
      [⟨"repo-status", "Repo status & recent commits", .ok, 0, some 1,
        some "Repo path not found; skipping git history. Context: none.", none⟩] ∧
    ((runStep (evInit 0)
        ⟨"repo-status", "Repo status & recent commits",
          .ok ⟨none, some "Repo path not found; skipping git history. Context: none.",
               none, []⟩⟩).steps.map (·.status)) ≠ [EvStatus.skipped] := by decide

/-- C10: `forceClearRunning` with no running run returns
`{ok: false, cleared: 0}` and leaves runs and the lock untouched; with
`n > 0` running runs (regardless of age) it marks exactly those runs
`failed` with error `"Manually cleared"` and a finish timestamp, sets the
lock row's `leaseExpiresAt` to the epoch with no owner condition, and
returns `{ok: true, cleared: n}`.  Run ids are assumed distinct (they are
database primary keys). -/
theorem forceClearRunning_behavior (now : Nat) (runs : List TriageRunRec)
    (lock : Option LockRow) (hids : (runs.map (·.id)).Nodup) :
    ((runs.filter fun r => r.status = "running") = [] →
        forceClearRunning now runs lock = ((false, 0), runs, lock)) ∧
    (∀ n, (runs.filter fun r => r.status = "running").length = n → 0 < n →
        forceClearRunning now runs lock =
          ((true, n),
           runs.map fun r =>
             if r.status = "running" then
               { r with
                  status := "failed"
                  error := some "Manually cleared"
                  finishedAt := some now }
             else r,
           lock.map fun l => { l with leaseExpiresAt := 0 })) := by
  constructor
  · intro h
    simp [forceClearRunning, h]
  · intro n hn hpos
    have hlen : ¬ (runs.filter fun r => r.status = "running").length = 0 := by omega
    have hmap :
        (runs.map fun r =>
          if ((runs.filter fun x => x.status = "running").map (·.id)).contains r.id then
            { r with
               status := "failed"
               error := some "Manually cleared"
               finishedAt := some now }
          else r) =
        runs.map fun r =>
          if r.status = "running" then
            { r with
               status := "failed"
               error := some "Manually cleared"
               finishedAt := some now }
          else r := by
      apply List.map_congr_left
      intro r hr
      by_cases hst : r.status = "running"
      · have hmem : r.id ∈ (runs.filter fun x => x.status = "running").map (·.id) :=
          List.mem_map_of_mem _ (List.mem_filter.mpr ⟨hr, by simp [hst]⟩)
        simp [hst, List.contains, hmem]
      · have hnmem : r.id ∉ (runs.filter fun x => x.status = "running").map (·.id) := by
          intro hmem
          rcases List.mem_map.mp hmem with ⟨r2, hr2, hid⟩
          rcases List.mem_filter.mp hr2 with ⟨hr2mem, hr2run⟩
          have : r2 = r := List.inj_on_of_nodup_map hids hr2mem hr hid
          rw [this] at hr2run
          exact hst (by simpa using hr2run)
        simp [hst, List.contains, hnmem]
    simp only [forceClearRunning, if_neg hlen]
    rw [hmap]
    simp only [List.length_map, hn]

/-- Any operation run by a process other than the current holder, at a time
at which the holder's lease is not yet expired, neither changes the lock
row nor reports a successful acquire. -/
theorem applyLeaseOp_other_preserves (A : String) (r : LockRow) (op : LeaseOp)
    (hA : r.ownerId = A) (hwho : op.who ≠ A) (htime : op.time ≤ r.leaseExpiresAt) :
    (applyLeaseOp op (some r)).2 = some r ∧ (applyLeaseOp op (some r)).1 ≠ some true := by
  cases op with
  | acquire w n ms =>
      simp only [LeaseOp.who] at hwho
      simp only [LeaseOp.time] at htime
      have hexp : ¬ r.leaseExpiresAt < n := by omega
      have hown : ¬ r.ownerId = w := by rw [hA]; exact fun h => hwho h.symm
      have hacq : acquireLease w n ms (some r) = (false, some r) := by
        simp [acquireLease, tryUpdateAcquire, hexp, hown]
      simp [applyLeaseOp, hacq]
  | renew w n ms =>
      simp only [LeaseOp.who] at hwho
      have hown : ¬ r.ownerId = w := by rw [hA]; exact fun h => hwho h.symm
      simp [applyLeaseOp, refreshLease, hown]
  | release w n =>
      simp only [LeaseOp.who] at hwho
      have hown : ¬ r.ownerId = w := by rw [hA]; exact fun h => hwho h.symm
      simp [applyLeaseOp, releaseLease, hown]

/-- C1: lease mutual exclusion.  A single lock row means at most one owner
can hold a non-expired lease at any time; an acquire succeeds only via the
conditional update matching an expired lease or the caller's own row, or
via the initial insert into an empty store (the unique-violation branch of
`tryInsert` reports failure); and for every interleaving of acquire, renew
and release operations by other processes, run while the holder's lease is
unexpired, every acquire returns `false` and the row is unchanged. -/
theorem lease_mutual_exclusion (A : String) (r : LockRow) (ops : List LeaseOp)
    (hA : r.ownerId = A)
    (hwho : ∀ op ∈ ops, op.who ≠ A)
    (htime : ∀ op ∈ ops, op.time ≤ r.leaseExpiresAt) :
    (∀ (st : Option LockRow) (B C : String) (t : Nat),
        holdsLease st B t → holdsLease st C t → B = C) ∧
    (∀ (self : String) (now ms : Nat) (st stB : Option LockRow),
        acquireLease self now ms st = (true, stB) →
        st = none ∨ ∃ q, st = some q ∧ (q.leaseExpiresAt < now ∨ q.ownerId = self)) ∧
    (runLeaseTrace ops (some r)).2 = some r ∧
    (∀ b ∈ (runLeaseTrace ops (some r)).1, b ≠ some true) := by
  have main : ∀ (l : List LeaseOp), (∀ op ∈ l, op.who ≠ A) →
      (∀ op ∈ l, op.time ≤ r.leaseExpiresAt) →
      (runLeaseTrace l (some r)).2 = some r ∧
      (∀ b ∈ (runLeaseTrace l (some r)).1, b ≠ some true) := by
    intro l
    induction l with
    | nil => intro _ _; simp [runLeaseTrace]
    | cons op rest ih =>
        intro hw ht
        have hop := applyLeaseOp_other_preserves A r op hA (hw op (by simp))
          (ht op (by simp))
        have hrest := ih (fun o ho => hw o (by simp [ho])) (fun o ho => ht o (by simp [ho]))
        simp only [runLeaseTrace]
        constructor
        · rw [hop.1]
          exact hrest.1
        · intro b hb
          simp only [List.mem_cons] at hb
          rcases hb with hb | hb
          · rw [hb]; exact hop.2
          · rw [hop.1] at hb
            exact hrest.2 b hb
  refine ⟨?_, ?_, (main ops hwho htime).1, (main ops hwho htime).2⟩
  · intro st B C t hB hC
    obtain ⟨rb, hstb, hob, _⟩ := hB
    obtain ⟨rc, hstc, hoc, _⟩ := hC
    rw [hstb] at hstc
    injection hstc with h
    rw [← hob, ← hoc, h]
  · intro self now ms st stB hacq
    cases st with
    | none => exact Or.inl rfl
    | some q =>
        right
        refine ⟨q, rfl, ?_⟩
        by_contra hcon
        have h1 : ¬ q.leaseExpiresAt < now := fun h => hcon (Or.inl h)
        have h2 : ¬ q.ownerId = self := fun h => hcon (Or.inr h)
        have : acquireLease self now ms (some q) = (false, some q) := by
          simp [acquireLease, tryUpdateAcquire, h1, h2]
        rw [this] at hacq
        simp at hacq

theorem lease_mutual_exclusion_witness :
    (runLeaseTrace [LeaseOp.acquire "b" 4000 1000, LeaseOp.renew "b" 4500 1000,
        LeaseOp.release "b" 4600] (some ⟨"a", 5000, 10, 10⟩)).2 =
      some ⟨"a", 5000, 10, 10⟩ :=
  (lease_mutual_exclusion "a" ⟨"a", 5000, 10, 10⟩
      [LeaseOp.acquire "b" 4000 1000, LeaseOp.renew "b" 4500 1000,
       LeaseOp.release "b" 4600] rfl (by decide) (by decide)).2.2.1

theorem runStep_steps (st : EvState) (s : NamedStep) :
    (runStep st s).steps = st.steps ++ [stepEntry s st.clock] := by
  cases hb : s.body with
  | ok r => simp [runStep, stepEntry, hb]
  | error m => simp [runStep, stepEntry, hb]

theorem runStep_clock (st : EvState) (s : NamedStep) :
    (runStep st s).clock = st.clock + 2 := by
  cases hb : s.body <;> simp [runStep, hb]

theorem gatherSteps_steps (ss : List NamedStep) (st : EvState) :
    (gatherSteps ss st).steps = st.steps ++ stepEntries ss st.clock := by
  induction ss generalizing st with
  | nil => simp [gatherSteps, stepEntries]
  | cons s rest ih =>
      show (gatherSteps rest (runStep st s)).steps = _
      rw [ih (runStep st s), runStep_steps, runStep_clock]
      simp [stepEntries]

theorem stepEntries_length (ss : List NamedStep) (t : Nat) :
    (stepEntries ss t).length = ss.length := by
  induction ss generalizing t with
  | nil => rfl
  | cons s rest ih => simp [stepEntries, ih]

theorem stepEntries_append (xs ys : List NamedStep) (t : Nat) :
    stepEntries (xs ++ ys) t = stepEntries xs t ++ stepEntries ys (t + 2 * xs.length) := by
  induction xs generalizing t with
  | nil => simp [stepEntries]
  | cons x rest ih =>
      simp only [List.cons_append, stepEntries, List.length_cons, List.append_eq]
      rw [ih (t + 2)]
      have h2 : t + 2 + 2 * rest.length = t + 2 * (rest.length + 1) := by omega
      rw [h2]

/-- C2: evidence isolation.  With the throwing step at position `k`
(`k = pre.length`), the bundle still has one entry per declared step in
declaration order; entry `k` has status `error`, summary equal to the
thrown message, and a recorded finish timestamp; and every other entry is
exactly what it would be with any non-throwing body at position `k`.  The
orchestrator is total: the throw is consumed by `runStep` and never
reaches the caller. -/
theorem evidence_isolation (pre post : List NamedStep) (id title msg : String) (c : Nat) :
    (gatherSteps (pre ++ ⟨id, title, .error msg⟩ :: post) (evInit c)).steps.length =
      (pre ++ ⟨id, title, .error msg⟩ :: post).length ∧
    (gatherSteps (pre ++ ⟨id, title, .error msg⟩ :: post) (evInit c)).steps[pre.length]? =
      some ⟨id, title, .error, c + 2 * pre.length, some (c + 2 * pre.length + 1),
        some msg, none⟩ ∧
    (∀ (b : Except String StepResult) (j : Nat), j ≠ pre.length →
        (gatherSteps (pre ++ ⟨id, title, b⟩ :: post) (evInit c)).steps[j]? =
        (gatherSteps (pre ++ ⟨id, title, .error msg⟩ :: post) (evInit c)).steps[j]?) := by
  refine ⟨?_, ?_, ?_⟩
  · rw [gatherSteps_steps]
    simp [evInit, stepEntries_length]
  · rw [gatherSteps_steps]
    simp only [evInit, List.nil_append]
    rw [stepEntries_append]
    have hge : (stepEntries pre c).length ≤ pre.length := by rw [stepEntries_length]
    rw [List.getElem?_append_right hge]
    rw [stepEntries_length]
    simp [stepEntries, stepEntry]
  · intro b j hj
    rw [gatherSteps_steps, gatherSteps_steps]
    simp only [evInit, List.nil_append]
    rw [stepEntries_append, stepEntries_append]
    rcases Nat.lt_or_ge j pre.length with hlt | hge
    · rw [List.getElem?_append_left (by rw [stepEntries_length]; exact hlt),
        List.getElem?_append_left (by rw [stepEntries_length]; exact hlt)]
    · have hge1 : (stepEntries pre c).length ≤ j := by rw [stepEntries_length]; exact hge
      rw [List.getElem?_append_right hge1, List.getElem?_append_right hge1]
      have hd : j - (stepEntries pre c).length ≠ 0 := by
        rw [stepEntries_length]; omega
      obtain ⟨d, hdd⟩ : ∃ d, j - (stepEntries pre c).length = d + 1 :=
        ⟨_, (Nat.succ_pred_eq_of_pos (Nat.pos_of_ne_zero hd)).symm⟩
      rw [hdd]
      simp [stepEntries]

theorem evidence_isolation_witness :
    (gatherSteps ([⟨"a", "A", .ok ⟨none, some "fine", none, []⟩⟩] ++
        ⟨"b", "B", Except.error "boom"⟩ :: [⟨"c", "C", .ok ⟨none, none, none, []⟩⟩])
      (evInit 0)).steps[0]? =
    (gatherSteps ([⟨"a", "A", .ok ⟨none, some "fine", none, []⟩⟩] ++
        ⟨"b", "B", .ok ⟨none, none, none, []⟩⟩ :: [⟨"c", "C", .ok ⟨none, none, none, []⟩⟩])
      (evInit 0)).steps[0]? :=
  ((evidence_isolation [⟨"a", "A", .ok ⟨none, some "fine", none, []⟩⟩]
      [⟨"c", "C", .ok ⟨none, none, none, []⟩⟩] "b" "B" "boom" 0).2.2
    (.ok ⟨none, none, none, []⟩) 0 (by decide)).symm

theorem countEvents_append (a b : List AlertEventRec) (mid : String) (modified : Nat) :
    countEvents (a ++ b) mid modified =
      countEvents a mid modified + countEvents b mid modified := by
  simp [countEvents, List.filter_append]

theorem countEvents_map_mk (l : List MonitorRec) (mid : String) (modified : Nat) :
    countEvents (l.map mkAlertEvent) mid modified =
      (l.filter fun m => m.monitorId = mid ∧ m.overallStateModified = modified).length := by
  unfold countEvents
  rw [List.filter_map]
  rw [List.length_map]
  rfl

theorem countEvents_zero_iff (db : List AlertEventRec) (mid : String) (modified : Nat) :
    countEvents db mid modified = 0 ↔ existsEvent db mid modified = false := by
  simp only [countEvents, List.length_eq_zero, List.filter_eq_nil_iff, existsEvent,
    List.any_eq_false, decide_eq_true_eq]

/-- C6: alert processing is deduplicated by `(monitorId, overallStateModified)`.
If no `AlertEvent` with the pair exists and the fetched monitors contain
exactly one monitor with that pair which passes the filters, one
discovery-and-processing pass creates exactly one record with the pair,
and a second pass over the same monitor state creates nothing at all: the
dedup query finds the existing record and skips every alert. -/
theorem alert_dedup_idempotent (pre post : MonitorRec → Bool) (db : List AlertEventRec)
    (ms : List MonitorRec) (mid : String) (modified : Nat)
    (hdb : countEvents db mid modified = 0)
    (hms : (ms.filter fun m =>
        m.monitorId = mid ∧ m.overallStateModified = modified).length = 1)
    (hpass : ∀ m ∈ ms, m.monitorId = mid → m.overallStateModified = modified →
        pre m = true ∧ post m = true) :
    countEvents (discoverAndProcess pre post db ms) mid modified = 1 ∧
    discoverAndProcess pre post (discoverAndProcess pre post db ms) ms =
      discoverAndProcess pre post db ms := by
  have hex : existsEvent db mid modified = false := (countEvents_zero_iff db _ _).mp hdb
  have hkeep : ∀ m ∈ ms, m.monitorId = mid → m.overallStateModified = modified →
      keepAlert pre post db m = true := by
    intro m hm h1 h2
    obtain ⟨hp, hq⟩ := hpass m hm h1 h2
    have : existsEvent db m.monitorId m.overallStateModified = false := by
      rw [h1, h2]; exact hex
    simp [keepAlert, hp, hq, this]
  constructor
  · unfold discoverAndProcess
    rw [countEvents_append, hdb, countEvents_map_mk]
    unfold collectAlerts
    rw [List.filter_filter]
    rw [List.filter_congr (q := fun m =>
        decide (m.monitorId = mid ∧ m.overallStateModified = modified))]
    · omega
    · intro m hm
      by_cases hpair : m.monitorId = mid ∧ m.overallStateModified = modified
      · simp [hpair, hkeep m hm hpair.1 hpair.2]
      · simp [hpair]
  · have hall : ∀ m ∈ ms, ¬ keepAlert pre post (discoverAndProcess pre post db ms) m = true := by
      intro m hm
      by_cases hpre : pre m = true
      · by_cases hpost : post m = true
        · have hex1 : existsEvent (discoverAndProcess pre post db ms)
              m.monitorId m.overallStateModified = true := by
            unfold discoverAndProcess
            rw [existsEvent, List.any_append]
            by_cases hex0 : existsEvent db m.monitorId m.overallStateModified = true
            · rw [existsEvent] at hex0
              simp only [hex0, Bool.true_or]
            · have hkeepm : keepAlert pre post db m = true := by
                simp only [Bool.not_eq_true] at hex0
                simp [keepAlert, hpre, hpost, hex0]
              have hmemc : m ∈ collectAlerts pre post db ms :=
                List.mem_filter.mpr ⟨hm, hkeepm⟩
              have hany : ((collectAlerts pre post db ms).map mkAlertEvent).any
                  (fun e => e.monitorId = m.monitorId ∧
                    e.overallStateModified = m.overallStateModified) = true := by
                rw [List.any_eq_true]
                exact ⟨mkAlertEvent m, List.mem_map_of_mem _ hmemc, by simp [mkAlertEvent]⟩
              simp only [hany, Bool.or_true]
          simp [keepAlert, hpre, hpost, hex1]
        · simp [keepAlert, hpost]
      · simp [keepAlert, hpre]
    have hnil : collectAlerts pre post (discoverAndProcess pre post db ms) ms = [] := by
      unfold collectAlerts
      exact List.filter_eq_nil_iff.mpr hall
    conv_lhs => rw [discoverAndProcess, hnil]
    simp

theorem alert_dedup_idempotent_witness :
    countEvents (discoverAndProcess (fun _ => true) (fun _ => true) []
        [⟨"m1", 42⟩, ⟨"m2", 7⟩]) "m1" 42 = 1 :=
  (alert_dedup_idempotent (fun _ => true) (fun _ => true) [] [⟨"m1", 42⟩, ⟨"m2", 7⟩]
      "m1" 42 (by decide) (by decide) (by decide)).1

/-- C7: when the lock row is held by another owner whose lease has not
expired, `runSchedulerTick` returns
`{processed: 0, skipped: "lease_not_acquired"}` and exits before any alert
work: no Datadog fetch happens, the `AlertEvent` table, the scheduler
state and the lock row are unchanged, and only the pre-acquisition
staleness sweep has touched the triage runs. -/
theorem tick_lease_not_acquired (cfg : SchedCfg) (pre post : MonitorRec → Bool)
    (prov : MonitorRec → Except String Unit) (now : Nat) (monitors : List MonitorRec)
    (st : TickState) (r : LockRow)
    (hrun : st.isRunning = false)
    (hlock : st.lock = some r)
    (howner : ¬ r.ownerId = cfg.ownerId)
    (hunexpired : ¬ r.leaseExpiresAt < now) :
    runSchedulerTick cfg pre post prov now monitors st =
      ({ processed := 0, backlog := none, skipped := some "lease_not_acquired",
         error := none },
       { st with
          triageRuns := failStaleRuns cfg.staleTimeoutMs now st.triageRuns
          isRunning := false }) := by
  have hacq : acquireLease cfg.ownerId now cfg.leaseMs (some r) = (false, some r) := by
    simp [acquireLease, tryUpdateAcquire, hunexpired, howner]
  obtain ⟨isR, lk, lra, lsa, le, tr, ae, fe⟩ := st
  simp only at hrun hlock
  subst hrun
  subst hlock
  simp [runSchedulerTick, hacq]

theorem tick_lease_not_acquired_witness :
    runSchedulerTick ⟨"me", 60000, 5, 120000, 600000⟩ (fun _ => true) (fun _ => true)
        (fun _ => Except.ok ()) 50000 [⟨"m1", 42⟩]
        ⟨false, some ⟨"other", 99999, 1, 1⟩, some 1, none, none, [], [], 0⟩ =
      ({ processed := 0, backlog := none, skipped := some "lease_not_acquired",
         error := none },
       { (⟨false, some ⟨"other", 99999, 1, 1⟩, some 1, none, none, [], [], 0⟩ : TickState) with
          triageRuns := failStaleRuns 600000 50000 []
          isRunning := false }) :=
  tick_lease_not_acquired ⟨"me", 60000, 5, 120000, 600000⟩ (fun _ => true) (fun _ => true)
    (fun _ => Except.ok ()) 50000 [⟨"m1", 42⟩]
    ⟨false, some ⟨"other", 99999, 1, 1⟩, some 1, none, none, [], [], 0⟩
    ⟨"other", 99999, 1, 1⟩ rfl rfl (by decide) (by decide)

theorem forceClearRunning_behavior_witness :
    forceClearRunning 100
        [⟨"r1", "running", none, none, 10⟩, ⟨"r2", "complete", none, some 9, 5⟩]
        (some ⟨"other", 99999, 4, 3⟩) =
      ((true, 1),
       [⟨"r1", "failed", some "Manually cleared", some 100, 10⟩,
        ⟨"r2", "complete", none, some 9, 5⟩],
       some ⟨"other", 0, 4, 3⟩) := by
  have h := (forceClearRunning_behavior 100
      [⟨"r1", "running", none, none, 10⟩, ⟨"r2", "complete", none, some 9, 5⟩]
      (some ⟨"other", 99999, 4, 3⟩) (by decide)).2 1 (by decide) (by decide)
  rw [h]
  decide
